import Mathlib

/-!
Verification of the service-orchestration core of `jupyterhub/app.py`
(class `JupyterHubApp`): port validation, entity creation, proxy launch
command construction, the readiness probe loop of `start_proxy`, the
`check_proxy` watchdog, `cleanup`, `start`, and hub-prefix normalization.

The Python methods are embedded as pure Lean functions.  External
nondeterminism (process poll results, socket probe outcomes, future
resolutions) is passed in as explicit oracle arguments; side effects are
recorded as event traces.
-/

set_option autoImplicit false

namespace JupyterHubApp

/-! ## Entity model (orm.Server / orm.Proxy as used by app.py) -/

/-- An `orm.Server` as used by `init_proxy` / `init_hub`: a listening
endpoint.  (The orm layer itself is outside the embedded file; only the
fields `app.py` sets and reads are modelled.  `base_url` is irrelevant to
every claim and omitted for the public server, recorded for the api
server via `baseUrl`.) -/
structure Server where
  ip : String
  port : Nat
  baseUrl : String
deriving DecidableEq, Repr

/-- The `orm.Proxy` entity built by `init_proxy`: public endpoint,
control-API endpoint, and the control-API auth token. -/
structure ProxyEntity where
  publicServer : Server
  apiServer : Server
  authToken : String
deriving DecidableEq, Repr

/-! ## C5: `init_ports` — port-conflict validation -/

/-- The three roles whose ports `init_ports` compares. -/
inductive PortRole
  | hub
  | proxyPublic
  | proxyApi
deriving DecidableEq, Repr

/-- The three configured ports consulted by `init_ports`:
`self.port` (proxy public), `self.hub_port`, `self.proxy_api_port`. -/
structure PortConfig where
  port : Nat
  hubPort : Nat
  proxyApiPort : Nat
deriving DecidableEq, Repr

/-- The port a role listens on under a given configuration. -/
def rolePort (cfg : PortConfig) : PortRole → Nat
  | .hub => cfg.hubPort
  | .proxyPublic => cfg.port
  | .proxyApi => cfg.proxyApiPort

/-- Embeds `JupyterHubApp.init_ports` (app.py lines 271-277): three
pairwise equality checks, each raising a `TraitError` naming the two
colliding roles; the error value records which two roles the raised
message names. -/
def init_ports (cfg : PortConfig) : Except (PortRole × PortRole) Unit :=
  if cfg.hubPort = cfg.port then .error (.hub, .proxyPublic)
  else if cfg.hubPort = cfg.proxyApiPort then .error (.hub, .proxyApi)
  else if cfg.proxyApiPort = cfg.port then .error (.proxyPublic, .proxyApi)
  else .ok ()

/-! ## C4: `init_proxy` and the `proxy_auth_token` trait -/

/-- The configuration consulted when building the Proxy entity:
`self.ip`, `self.port`, `self.proxy_api_ip`, `self.proxy_api_port`, and
the configurable `proxy_auth_token` trait (app.py lines 152-156), whose
value is the operator-configured token when one is set and a freshly
generated `orm.new_token()` otherwise. -/
structure ProxyConfig where
  ip : String
  port : Nat
  proxyApiIp : String
  proxyApiPort : Nat
  proxyAuthToken : String
deriving DecidableEq, Repr

/-- Embeds `JupyterHubApp.init_proxy` (app.py lines 331-346).
`freshToken` is the value returned by the `orm.new_token()` call on line
343: the code passes `auth_token = orm.new_token()`, so the committed
entity carries `freshToken`, not `cfg.proxyAuthToken`.  (The public
server's orm-default base url is not modelled; no claim consults it.) -/
def init_proxy (cfg : ProxyConfig) (freshToken : String) : ProxyEntity :=
  { publicServer := { ip := cfg.ip, port := cfg.port, baseUrl := "" }
    apiServer := { ip := cfg.proxyApiIp, port := cfg.proxyApiPort, baseUrl := "/api/routes/" }
    authToken := freshToken }

/-! ## C9: the launch command and environment built by `start_proxy` -/

/-- Configuration consulted by the command-building part of
`start_proxy` (app.py lines 351-365): `self.proxy_cmd`, the ssl paths,
whether `self.log_level == logging.DEBUG`, and the default target
`self.hub.server.host` (a string derived from the hub's ip and port). -/
structure LaunchConfig where
  proxyCmd : String
  sslKey : String
  sslCert : String
  debugLog : Bool
  defaultTarget : String
deriving DecidableEq, Repr

/-- Embeds the `cmd` list built by `start_proxy` (app.py lines 353-365):
base argv plus the conditional `--log-level`, `--ssl-key`, `--ssl-cert`
extensions.  Note the token is not consulted. -/
def buildProxyCmd (cfg : LaunchConfig) (proxy : ProxyEntity) : List String :=
  [cfg.proxyCmd,
   "--ip", proxy.publicServer.ip,
   "--port", toString proxy.publicServer.port,
   "--api-ip", proxy.apiServer.ip,
   "--api-port", toString proxy.apiServer.port,
   "--default-target", cfg.defaultTarget]
  ++ (if cfg.debugLog then ["--log-level", "debug"] else [])
  ++ (if cfg.sslKey ≠ "" then ["--ssl-key", cfg.sslKey] else [])
  ++ (if cfg.sslCert ≠ "" then ["--ssl-cert", cfg.sslCert] else [])

/-- Association-list lookup, the read counterpart of `env[k] = v`. -/
def envLookup (env : List (String × String)) (k : String) : Option String :=
  match env with
  | [] => none
  | (k', v) :: rest => if k' = k then some v else envLookup rest k

/-- Embeds `env = os.environ.copy(); env['CONFIGPROXY_AUTH_TOKEN'] =
self.proxy.auth_token` (app.py lines 351-352): the inherited environment
with the token bound to `CONFIGPROXY_AUTH_TOKEN`. -/
def buildProxyEnv (baseEnv : List (String × String)) (proxy : ProxyEntity) :
    List (String × String) :=
  ("CONFIGPROXY_AUTH_TOKEN", proxy.authToken)
    :: baseEnv.filter (fun kv => kv.1 ≠ "CONFIGPROXY_AUTH_TOKEN")

/-- Every string from which an element of `buildProxyCmd` can be drawn:
the configuration strings and the literal flag words. -/
def cmdSourceStrings (cfg : LaunchConfig) (proxy : ProxyEntity) : List String :=
  [cfg.proxyCmd, proxy.publicServer.ip, toString proxy.publicServer.port,
   proxy.apiServer.ip, toString proxy.apiServer.port, cfg.defaultTarget,
   cfg.sslKey, cfg.sslCert,
   "--ip", "--port", "--api-ip", "--api-port", "--default-target",
   "--log-level", "debug", "--ssl-key", "--ssl-cert"]

/-! ## C1 / C6: the readiness probe loop of `start_proxy`
(app.py lines 367-386)

The loop is driven by two oracles per endpoint: `poll i` is the result
of `self.proxy_process.poll()` at the `i`-th iteration's `_check()`
(`none` = still running, `some code` = exited with `code`), and `up i`
tells whether `server.wait_up(1)` at iteration `i` returns within its
timeout (`false` = it raises `TimeoutError`).  `finalUp` is the outcome
of the final `yield server.wait_up(1)` after the loop. -/

/-- The two errors the probing phase can raise: the `RuntimeError`
"Proxy failed to start with exit code %i" from `_check`, and the
`TimeoutError` propagating out of the final `wait_up`. -/
inductive StartErr
  | launch (code : Int)
  | timeout
deriving DecidableEq, Repr

/-- Observable steps of the probing phase: a `_check()` liveness poll, a
`wait_up` probe inside the loop (with its timeout argument and outcome),
and the final unconditional `wait_up` (with its timeout and outcome). -/
inductive ProbeEv
  | check (i : Nat)
  | probe (i : Nat) (timeoutUnits : Nat) (up : Bool)
  | finalWait (timeoutUnits : Nat) (up : Bool)
deriving DecidableEq, Repr

/-- Embeds `for i in range(n): _check(); try: yield server.wait_up(1)
except TimeoutError: continue; else: break` starting at iteration `i`
with `n` iterations remaining: returns the event trace and `some err`
when `_check` raised (loop aborted), `none` when the loop exited
normally (break or budget exhausted). -/
def probeAttempts (poll : Nat → Option Int) (up : Nat → Bool) :
    Nat → Nat → List ProbeEv × Option StartErr
  | _, 0 => ([], none)
  | i, n + 1 =>
    match poll i with
    | some code => ([.check i], some (.launch code))
    | none =>
      if up i then ([.check i, .probe i 1 true], none)
      else
        let r := probeAttempts poll up (i + 1) n
        (.check i :: .probe i 1 false :: r.1, r.2)

/-- Counts the in-loop `wait_up` probe attempts in a trace. -/
def probeCount (tr : List ProbeEv) : Nat :=
  tr.countP fun e => match e with | .probe _ _ _ => true | _ => false

/-- Embeds one iteration of `for server in (self.proxy.public_server,
self.proxy.api_server)`: the 10-attempt loop followed by the final
unconditional `yield server.wait_up(1)`. -/
def probeServer (poll : Nat → Option Int) (up : Nat → Bool) (finalUp : Bool) :
    List ProbeEv × Except StartErr Unit :=
  match (probeAttempts poll up 0 10).2 with
  | some e => ((probeAttempts poll up 0 10).1, .error e)
  | none =>
    ((probeAttempts poll up 0 10).1 ++ [.finalWait 1 finalUp],
     if finalUp then .ok () else .error .timeout)

/-- Which of the proxy's two endpoints an event belongs to. -/
inductive EndpointTag
  | publicEp
  | apiEp
deriving DecidableEq, Repr

/-- The probe oracles for a run of `start_proxy`: one `poll`/`wait_up`
oracle pair and one final-wait outcome per endpoint. -/
structure ProbeWorld where
  pollPub : Nat → Option Int
  upPub : Nat → Bool
  finalPub : Bool
  pollApi : Nat → Option Int
  upApi : Nat → Bool
  finalApi : Bool

/-- Embeds the probing phase of `JupyterHubApp.start_proxy` (app.py
lines 376-385): the public endpoint is probed first; an exception there
aborts the coroutine before the api endpoint is touched. -/
def start_proxy (w : ProbeWorld) :
    List (EndpointTag × ProbeEv) × Except StartErr Unit :=
  match (probeServer w.pollPub w.upPub w.finalPub).2 with
  | .error e =>
    ((probeServer w.pollPub w.upPub w.finalPub).1.map (Prod.mk .publicEp),
     .error e)
  | .ok _ =>
    ((probeServer w.pollPub w.upPub w.finalPub).1.map (Prod.mk .publicEp)
       ++ (probeServer w.pollApi w.upApi w.finalApi).1.map (Prod.mk .apiEp),
     (probeServer w.pollApi w.upApi w.finalApi).2)

/-- The events of one endpoint in a `start_proxy` trace. -/
def endpointEvents (tag : EndpointTag) (tr : List (EndpointTag × ProbeEv)) :
    List ProbeEv :=
  (tr.filter fun ev => ev.1 == tag).map Prod.snd

/-! ## C7: the `check_proxy` watchdog tick (app.py lines 388-396) -/

/-- Observable actions of a watchdog tick: a `start_proxy` restart
(recording the Proxy entity it is invoked with) and one
`add_all_users` route-add per user with a backend. -/
inductive WatchAct
  | restart (proxy : ProxyEntity)
  | addRoute (user : String)
deriving DecidableEq, Repr

/-- Embeds `JupyterHubApp.check_proxy`: if `self.proxy_process.poll()`
is `None` the tick returns at once; otherwise it re-runs `start_proxy`
(with the unchanged `self.proxy` entity) and then
`self.proxy.add_all_users()`, one route-add per user with a backend. -/
def check_proxy (proxy : ProxyEntity) (poll : Option Int)
    (usersWithBackends : List String) : List WatchAct :=
  match poll with
  | none => []
  | some _ => .restart proxy :: usersWithBackends.map .addRoute

/-! ## C2: `cleanup` (app.py lines 455-478)

`cleanup` collects one stop future per user with a spawner, terminates
the proxy, then awaits the futures in order with a bare `yield f` — no
`try`/`except` — so a failing future propagates its exception out of
`cleanup` and the statements after the loop (pid-file removal, the
completion log) never run.  A future's behavior is an oracle:
`resolved` or `failed` (raises when awaited). -/

/-- Outcome of one spawner's `stop()` future when awaited. -/
inductive StopOutcome
  | resolved
  | failed
deriving DecidableEq, Repr

/-- Inputs of a `cleanup` run: per user, whether `user.spawner` is
attached and how its stop future behaves; the `pid_file` setting and
whether that file exists. -/
structure CleanupWorld where
  users : List (String × Option StopOutcome)
  pidFile : String
  pidFileExists : Bool

/-- Observable steps of `cleanup`. -/
inductive CleanEv
  | stopRequested (u : String)
  | terminateProxy
  | stopAwaited (u : String)
  | removePid
  | doneLog
deriving DecidableEq, Repr

/-- The users with an attached spawner, paired with their stop future's
outcome — the futures collected by the first loop of `cleanup`. -/
def stopsOf (w : CleanupWorld) : List (String × StopOutcome) :=
  w.users.filterMap fun p => p.2.map fun o => (p.1, o)

/-- Embeds `for f in futures: yield f`: awaits each future in order;
the first failing future raises (carrying its user's name here), and the
remaining futures are not awaited. -/
def awaitFutures : List (String × StopOutcome) → List CleanEv × Except String Unit
  | [] => ([], .ok ())
  | (u, .resolved) :: rest =>
    (.stopAwaited u :: (awaitFutures rest).1, (awaitFutures rest).2)
  | (u, .failed) :: _ => ([], .error u)

/-- Embeds `JupyterHubApp.cleanup`: request stops, terminate the proxy,
await the futures, then (only if no await raised) remove the pid file if
configured and present, and log completion. -/
def cleanup (w : CleanupWorld) : List CleanEv × Except String Unit :=
  match (awaitFutures (stopsOf w)).2 with
  | .error u =>
    ((stopsOf w).map (fun p => CleanEv.stopRequested p.1)
       ++ [CleanEv.terminateProxy] ++ (awaitFutures (stopsOf w)).1,
     .error u)
  | .ok _ =>
    ((stopsOf w).map (fun p => CleanEv.stopRequested p.1)
       ++ [CleanEv.terminateProxy] ++ (awaitFutures (stopsOf w)).1
       ++ (if w.pidFile ≠ "" ∧ w.pidFileExists = true then [CleanEv.removePid] else [])
       ++ [CleanEv.doneLog],
     .ok ())

/-! ## C3: `start` (app.py lines 502-530)

On a `start_proxy` failure, `start` logs "Failed to start proxy"
(critical) and plainly `return`s; `main = JupyterHubApp.launch_instance`
then returns normally, so the interpreter exits with status 0.  On
success the watchdog is armed and `http_server.listen(self.hub_port)`
binds the hub's request-handling surface. -/

/-- Outcome of `start`: aborted with a diagnostic and the resulting
process exit status, or serving (surface bound). -/
inductive StartResult
  | aborted (diagnostic : String) (exitStatus : Nat)
  | serving
deriving DecidableEq, Repr

/-- Embeds `JupyterHubApp.start` over the probe oracles of its
`start_proxy` call. -/
def start (w : ProbeWorld) : StartResult :=
  match (start_proxy w).2 with
  | .error _ => .aborted "Failed to start proxy" 0
  | .ok _ => .serving

/-- Whether the hub's request-handling surface was bound. -/
def binds : StartResult → Bool
  | .serving => true
  | .aborted _ _ => false

/-! ## C8: startup ordering across `initialize` and `start`
(app.py lines 439-453 and 502-522) -/

/-- The ordered observable steps of a run of `initialize` then `start`. -/
inductive AppEv
  | loadConfig
  | writePid
  | initLogging
  | initPortsEv
  | initDbEv
  | commitHub
  | commitProxy
  | initHandlersEv
  | initSettings
  | initApp
  | buildEnv
  | launchProxy
  | proxyReachable
  | armWatchdog
  | bindHub
deriving DecidableEq, Repr

/-- The event trace of `initialize`: the straight-line call sequence of
app.py lines 444-453; a port-conflict error aborts it right after
`init_ports`. -/
def initializeTrace (ports : Except (PortRole × PortRole) Unit) : List AppEv :=
  [.loadConfig, .writePid, .initLogging, .initPortsEv] ++
  match ports with
  | .error _ => []
  | .ok _ => [.initDbEv, .commitHub, .commitProxy, .initHandlersEv,
              .initSettings, .initApp]

/-- The event trace of `start`: `start_proxy` first constructs the
environment holding the token, then launches the process; only if the
probing succeeds does `start` arm the watchdog and bind the hub's
listener. -/
def startTrace (w : ProbeWorld) : List AppEv :=
  [.buildEnv, .launchProxy] ++
  match (start_proxy w).2 with
  | .error _ => []
  | .ok _ => [.proxyReachable, .armWatchdog, .bindHub]

/-- A full run: `initialize`, then — only if it did not raise — `start`. -/
def runApp (pcfg : PortConfig) (w : ProbeWorld) : List AppEv :=
  initializeTrace (init_ports pcfg) ++
  match init_ports pcfg with
  | .error _ => []
  | .ok _ => startTrace w

/-! ## C10: hub-prefix normalization (the `hub_prefix` trait change
handler, app.py lines 180-191)

Strings are embedded as `List Char`.  Assigning a value to the trait
fires the handler; when the handler re-assigns the normalized value the
handler fires again on it, so assignment is a normalization loop whose
depth is bounded by Python's recursion limit (`fuel` here). -/

/-- `s.startswith(p)` on character lists. -/
def startsWithL : List Char → List Char → Bool
  | _, [] => true
  | [], _ :: _ => false
  | c :: s, p :: ps => c == p && startsWithL s ps

/-- `s.endswith(p)` on character lists. -/
def endsWithL (s p : List Char) : Bool :=
  startsWithL s.reverse p.reverse

/-- Drops leading `'/'` characters. -/
def dropSlashesL : List Char → List Char
  | [] => []
  | c :: t => if c = '/' then dropSlashesL t else c :: t

/-- `s.strip('/')`: drops leading and trailing `'/'` characters. -/
def stripSlashes (s : List Char) : List Char :=
  (dropSlashesL (dropSlashesL s).reverse).reverse

/-- The middle part of the join: the stripped pieces, joined with `'/'`,
empty pieces filtered out. -/
def joinCore (a b : List Char) : List Char :=
  if stripSlashes a = [] then stripSlashes b
  else if stripSlashes b = [] then stripSlashes a
  else stripSlashes a ++ '/' :: stripSlashes b

/-- The join before the double-slash fix: the core, with the first
piece's initial slash and the last piece's final slash restored. -/
def joinSlashed (a b : List Char) : List Char :=
  (if startsWithL a ['/'] then '/' :: joinCore a b else joinCore a b)
    ++ (if endsWithL b ['/'] then ['/'] else [])

/-- Modelled from the spec: the `url_path_join` helper lives in the
repository's `utils` module, which is not part of the embedded file.
Per the spec, the handler's value is "joined under the base URL if it
did not already start with it": the join strips the pieces' slashes,
joins them with a single `'/'`, keeps the first piece's initial slash
and the last piece's final slash, and collapses a bare `"//"` result to
`"/"`. -/
def urlPathJoin (a b : List Char) : List Char :=
  if joinSlashed a b = ['/', '/'] then ['/'] else joinSlashed a b

/-- `if not new.startswith('/'): newnew = '/' + new`. -/
def withLead (new : List Char) : List Char :=
  if startsWithL new ['/'] then new else '/' :: new

/-- `if not newnew.endswith('/'): newnew = newnew + '/'`. -/
def withTail (n1 : List Char) : List Char :=
  if endsWithL n1 ['/'] then n1 else n1 ++ ['/']

/-- Embeds the normalization body of the `hub_prefix` change handler
(app.py lines 183-189): add the leading and trailing slash, then join
under the base URL when the value does not already start with it. -/
def hubPrefixStep (base new : List Char) : List Char :=
  if startsWithL (withTail (withLead new)) base then withTail (withLead new)
  else urlPathJoin base (withTail (withLead new))

/-- Errors of an assignment to the `hub_prefix` trait: the explicit
`TraitError` on `'/'`, and Python's recursion limit when the
reassignment loop diverges. -/
inductive HubPrefixErr
  | slashError
  | recursionLimit
deriving DecidableEq, Repr

/-- Embeds assigning `new` to the `hub_prefix` trait: the handler
raises on `'/'`, computes the normalized value, and when it differs
re-assigns it, firing the handler again; returns the stored value after
the handlers settle. -/
def setHubPrefix (base : List Char) : Nat → List Char → Except HubPrefixErr (List Char)
  | 0, _ => .error .recursionLimit
  | fuel + 1, new =>
    if new = ['/'] then .error .slashError
    else if hubPrefixStep base new = new then .ok new
    else setHubPrefix base fuel (hubPrefixStep base new)

/-! ## Theorems -/

/-- **C5.** For every configured port triple in which two ports among
{hub, proxy-public, proxy-api} coincide, `init_ports` fails, and the
error names two distinct roles whose configured ports are indeed equal;
for every pairwise-distinct triple it succeeds (returning `()`, with no
side effects). -/
theorem init_ports_validates (cfg : PortConfig) :
    (init_ports cfg = .ok () ↔
      (cfg.hubPort ≠ cfg.port ∧ cfg.hubPort ≠ cfg.proxyApiPort ∧
        cfg.proxyApiPort ≠ cfg.port)) ∧
    (∀ r s, init_ports cfg = .error (r, s) →
      r ≠ s ∧ rolePort cfg r = rolePort cfg s) := by
  unfold init_ports
  split_ifs with h1 h2 h3 <;> constructor <;> simp_all [rolePort]

/-- Witness for C5 at concrete inputs: the triple (8000, 8081, 8001) is
accepted, and the error raised for (8000, 8000, 8001) names two distinct
roles that really collide. -/
theorem init_ports_validates_w :
    init_ports ⟨8000, 8081, 8001⟩ = .ok () ∧
    (PortRole.hub ≠ PortRole.proxyPublic ∧
      rolePort ⟨8000, 8000, 8001⟩ .hub = rolePort ⟨8000, 8000, 8001⟩ .proxyPublic) :=
  ⟨(init_ports_validates ⟨8000, 8081, 8001⟩).1.mpr (by decide),
   (init_ports_validates ⟨8000, 8000, 8001⟩).2 .hub .proxyPublic rfl⟩

/-- **C4 (code behavior at the failing input).** With the operator having
configured the proxy auth token `"configured-secret"`, the Proxy entity
built by `init_proxy` nevertheless carries the freshly generated token:
the configured `proxy_auth_token` trait is never consulted. -/
theorem init_proxy_ignores_configured_token :
    (init_proxy ⟨"", 8000, "localhost", 8001, "configured-secret"⟩
        "fresh-token").authToken = "fresh-token" ∧
    ("fresh-token" : String) ≠ "configured-secret" ∧
    (∀ cfg : ProxyConfig, ∀ t : String, (init_proxy cfg t).authToken = t) :=
  ⟨rfl, by decide, fun _ _ => rfl⟩

/-- Membership in a conditionally-empty list implies membership in the
non-empty branch. -/
theorem mem_ite_sub {α : Type} {c : Prop} [Decidable c] {l : List α} {s : α}
    (h : s ∈ if c then l else []) : s ∈ l := by
  split at h
  · exact h
  · cases h

/-- Every element of the launch argv is one of the configuration-derived
strings or literal flag words listed in `cmdSourceStrings`. -/
theorem mem_cmd_sources (cfg : LaunchConfig) (proxy : ProxyEntity) :
    ∀ s ∈ buildProxyCmd cfg proxy, s ∈ cmdSourceStrings cfg proxy := by
  intro s hs
  unfold buildProxyCmd at hs
  unfold cmdSourceStrings
  simp only [List.mem_cons, List.not_mem_nil, or_false]
  rcases List.mem_append.mp hs with hs | hs
  · rcases List.mem_append.mp hs with hs | hs
    · rcases List.mem_append.mp hs with hs | hs
      · simp only [List.mem_cons, List.not_mem_nil, or_false] at hs
        tauto
      · have hs := mem_ite_sub hs
        simp only [List.mem_cons, List.not_mem_nil, or_false] at hs
        tauto
    · have hs := mem_ite_sub hs
      simp only [List.mem_cons, List.not_mem_nil, or_false] at hs
      tauto
  · have hs := mem_ite_sub hs
    simp only [List.mem_cons, List.not_mem_nil, or_false] at hs
    tauto

/-- **C9.** The launch argv never contains the control-API auth token
(whenever the token differs from the finitely many configuration-derived
strings and literal flags, as a randomly generated token does), the
environment passed to the process binds `CONFIGPROXY_AUTH_TOKEN` to the
token, and the argv is independent of the token — it is passed
exclusively through the environment, for every configuration (with or
without TLS material, at any log level). -/
theorem proxy_token_not_in_argv (cfg : LaunchConfig) (proxy : ProxyEntity)
    (baseEnv : List (String × String))
    (h : proxy.authToken ∉ cmdSourceStrings cfg proxy) :
    proxy.authToken ∉ buildProxyCmd cfg proxy ∧
    envLookup (buildProxyEnv baseEnv proxy) "CONFIGPROXY_AUTH_TOKEN"
      = some proxy.authToken ∧
    (∀ t, buildProxyCmd cfg { proxy with authToken := t }
      = buildProxyCmd cfg proxy) := by
  exact ⟨fun hmem => h (mem_cmd_sources cfg proxy _ hmem),
    by simp [buildProxyEnv, envLookup], fun _ => rfl⟩

/-- Witness for C9 at a concrete configuration (TLS configured, debug
logging on) and the token `"tok123"`. -/
theorem proxy_token_not_in_argv_w :
    "tok123" ∉ buildProxyCmd ⟨"configurable-http-proxy", "k.pem", "c.pem", true, "http://localhost:8081"⟩
      ⟨⟨"", 8000, ""⟩, ⟨"localhost", 8001, "/api/routes/"⟩, "tok123"⟩ :=
  (proxy_token_not_in_argv _ _ [] (by decide)).1

/-! ### Supporting lemmas for the probe loop -/

/-- The loop makes at most `n` in-loop probe attempts. -/
theorem probeCount_le (poll : Nat → Option Int) (up : Nat → Bool) :
    ∀ n i, probeCount (probeAttempts poll up i n).1 ≤ n := by
  intro n
  induction n with
  | zero => intro i; simp [probeAttempts, probeCount]
  | succ n ih =>
    intro i
    unfold probeAttempts
    cases hp : poll i with
    | some c => simp [probeCount]
    | none =>
      by_cases hu : up i
      · simp [hu, probeCount]
      · have := ih (i + 1)
        simp only [hu, if_neg, Bool.false_eq_true, not_false_iff]
        simp [probeCount, List.countP_cons] at this ⊢
        omega

/-- A `_check` finding the process exited aborts the loop at once. -/
theorem probeAttempts_dead (poll : Nat → Option Int) (up : Nat → Bool)
    (i n : Nat) (c : Int) (hp : poll i = some c) :
    probeAttempts poll up i (n + 1) = ([.check i], some (.launch c)) := by
  unfold probeAttempts
  rw [hp]

/-- A probe timeout is treated as not-yet-ready: the loop records the
failed attempt and continues with the next iteration. -/
theorem probeAttempts_timeout_retries (poll : Nat → Option Int)
    (up : Nat → Bool) (i n : Nat) (hp : poll i = none) (hu : up i = false) :
    probeAttempts poll up i (n + 1)
      = (.check i :: .probe i 1 false :: (probeAttempts poll up (i + 1) n).1,
         (probeAttempts poll up (i + 1) n).2) := by
  conv_lhs => rw [probeAttempts]
  rw [hp, hu]
  simp

/-- An exit discovered at attempt `i` — the first `i` attempts all
timed out with the process still alive — aborts the loop with the
launch error carrying the exit code, after exactly the `i` earlier
probe attempts: no probe happens at attempt `i` or later. -/
theorem probeAttempts_dead_after (poll : Nat → Option Int) (up : Nat → Bool) :
    ∀ i a n c, (∀ j, a ≤ j → j < a + i → poll j = none ∧ up j = false) →
      i < n → poll (a + i) = some c →
      (probeAttempts poll up a n).2 = some (.launch c) ∧
      probeCount (probeAttempts poll up a n).1 = i := by
  intro i
  induction i with
  | zero =>
    intro a n c _ hn hp
    obtain ⟨n', rfl⟩ : ∃ n', n = n' + 1 := ⟨n - 1, by omega⟩
    rw [probeAttempts_dead poll up a n' c (by simpa using hp)]
    exact ⟨rfl, by simp [probeCount]⟩
  | succ i ih =>
    intro a n c hto hn hp
    obtain ⟨n', rfl⟩ : ∃ n', n = n' + 1 := ⟨n - 1, by omega⟩
    have ha := hto a (Nat.le_refl a) (by omega)
    rw [probeAttempts_timeout_retries poll up a n' ha.1 ha.2]
    have hih := ih (a + 1) n' c
      (fun j h1 h2 => hto j (by omega) (by omega)) (by omega)
      (by rw [show a + 1 + i = a + (i + 1) from by omega]; exact hp)
    refine ⟨hih.1, ?_⟩
    have h2 := hih.2
    simp [probeCount, List.countP_cons] at h2 ⊢
    omega

/-- The loop's outcome depends on the poll oracle only at the iterations
inside the budget. -/
theorem probeAttempts_poll_local (poll poll' : Nat → Option Int)
    (up : Nat → Bool) :
    ∀ n i, (∀ j, i ≤ j → j < i + n → poll j = poll' j) →
      probeAttempts poll up i n = probeAttempts poll' up i n := by
  intro n
  induction n with
  | zero => intro i _; rfl
  | succ n ih =>
    intro i h
    have h0 : poll i = poll' i := h i (Nat.le_refl i) (by omega)
    unfold probeAttempts
    rw [h0]
    cases hp : poll' i with
    | some c => rfl
    | none =>
      by_cases hu : up i
      · simp [hu]
      · simp only [hu, Bool.false_eq_true, if_neg, not_false_iff]
        rw [ih (i + 1) (fun j hj1 hj2 => h j (by omega) (by omega))]

/-- Dispatch equation: the loop aborted with a launch error. -/
theorem probeServer_eq_some (poll : Nat → Option Int) (up : Nat → Bool)
    (finalUp : Bool) (e : StartErr)
    (h : (probeAttempts poll up 0 10).2 = some e) :
    probeServer poll up finalUp = ((probeAttempts poll up 0 10).1, .error e) := by
  unfold probeServer
  rw [h]

/-- Dispatch equation: the loop exited normally, so the per-server block
appends exactly one final wait whose outcome decides the result. -/
theorem probeServer_eq_none (poll : Nat → Option Int) (up : Nat → Bool)
    (finalUp : Bool) (h : (probeAttempts poll up 0 10).2 = none) :
    probeServer poll up finalUp
      = ((probeAttempts poll up 0 10).1 ++ [.finalWait 1 finalUp],
         if finalUp then .ok () else .error .timeout) := by
  unfold probeServer
  rw [h]

/-- If the loop exits without a launch error, the per-server block
appends exactly one final wait and its outcome decides the result. -/
theorem probeServer_final (poll : Nat → Option Int) (up : Nat → Bool)
    (finalUp : Bool) (h : (probeAttempts poll up 0 10).2 = none) :
    (probeServer poll up finalUp).1
        = (probeAttempts poll up 0 10).1 ++ [.finalWait 1 finalUp] ∧
    (probeServer poll up finalUp).2
        = (if finalUp then .ok () else .error .timeout) := by
  rw [probeServer_eq_none poll up finalUp h]
  exact ⟨rfl, rfl⟩

/-- The per-server block succeeds iff the loop raised no launch error
and the final wait found the endpoint up. -/
theorem probeServer_ok_iff (poll : Nat → Option Int) (up : Nat → Bool)
    (finalUp : Bool) :
    (probeServer poll up finalUp).2 = .ok () ↔
      ((probeAttempts poll up 0 10).2 = none ∧ finalUp = true) := by
  cases h : (probeAttempts poll up 0 10).2 with
  | some e => rw [probeServer_eq_some poll up finalUp e h]; simp [h]
  | none =>
    rw [probeServer_eq_none poll up finalUp h]
    cases finalUp <;> simp [h]

/-- Per endpoint, at most 10 in-loop probe attempts are made. -/
theorem probeServer_probeCount_le (poll : Nat → Option Int)
    (up : Nat → Bool) (finalUp : Bool) :
    probeCount (probeServer poll up finalUp).1 ≤ 10 := by
  cases h : (probeAttempts poll up 0 10).2 with
  | some e =>
    rw [probeServer_eq_some poll up finalUp e h]
    exact probeCount_le poll up 10 0
  | none =>
    rw [probeServer_eq_none poll up finalUp h]
    have h10 := probeCount_le poll up 10 0
    simp [probeCount, List.countP_append] at h10 ⊢
    omega

/-- Dispatch equation: the public endpoint's block failed, so
`start_proxy` stops there. -/
theorem start_proxy_eq_error (w : ProbeWorld) (e : StartErr)
    (h : (probeServer w.pollPub w.upPub w.finalPub).2 = .error e) :
    start_proxy w
      = ((probeServer w.pollPub w.upPub w.finalPub).1.map (Prod.mk .publicEp),
         .error e) := by
  unfold start_proxy
  rw [h]

/-- Dispatch equation: the public endpoint's block succeeded, so
`start_proxy` continues with the api endpoint. -/
theorem start_proxy_eq_ok (w : ProbeWorld)
    (h : (probeServer w.pollPub w.upPub w.finalPub).2 = .ok ()) :
    start_proxy w
      = ((probeServer w.pollPub w.upPub w.finalPub).1.map (Prod.mk .publicEp)
           ++ (probeServer w.pollApi w.upApi w.finalApi).1.map (Prod.mk .apiEp),
         (probeServer w.pollApi w.upApi w.finalApi).2) := by
  unfold start_proxy
  rw [h]

/-- `start_proxy` succeeds iff both endpoints' loops raised no launch
error and both final waits accepted a connection. -/
theorem start_proxy_ok_iff (w : ProbeWorld) :
    (start_proxy w).2 = .ok () ↔
      ((probeAttempts w.pollPub w.upPub 0 10).2 = none ∧ w.finalPub = true ∧
       (probeAttempts w.pollApi w.upApi 0 10).2 = none ∧ w.finalApi = true) := by
  cases hp : (probeServer w.pollPub w.upPub w.finalPub).2 with
  | error e =>
    have hpub : ¬((probeAttempts w.pollPub w.upPub 0 10).2 = none ∧
        w.finalPub = true) := by
      intro hc
      have := (probeServer_ok_iff w.pollPub w.upPub w.finalPub).mpr hc
      rw [hp] at this
      exact absurd this (by simp)
    rw [start_proxy_eq_error w e hp]
    constructor
    · intro hc; exact absurd hc (by simp)
    · rintro ⟨h1, h2, _, _⟩; exact absurd ⟨h1, h2⟩ hpub
  | ok u =>
    cases u
    have hpub := (probeServer_ok_iff w.pollPub w.upPub w.finalPub).mp hp
    have hapi := probeServer_ok_iff w.pollApi w.upApi w.finalApi
    rw [start_proxy_eq_ok w hp]
    constructor
    · intro h2
      have h3 := hapi.mp h2
      exact ⟨hpub.1, hpub.2, h3.1, h3.2⟩
    · rintro ⟨_, _, h3, h4⟩
      exact hapi.mpr ⟨h3, h4⟩

/-! ### Claim theorems for the probe loop and the watchdog -/

/-- **C1.** For each endpoint, `start_proxy` performs up to 10
readiness-probe attempts with a 1-time-unit `wait_up` timeout, a probe
timeout is treated as not-yet-ready and retried, and after the bounded
loop — whether it exhausted its budget or broke out early, i.e. whenever
it raised no launch error — exactly one final unconditional wait-for-up
runs, whose failure propagates as the startup-timeout error; the final
step never consults the process-liveness oracle beyond the loop; and
`start_proxy` returns successfully only once both endpoints have
accepted a connection. -/
theorem start_proxy_retry_discipline (w : ProbeWorld) :
    (∀ (poll : Nat → Option Int) (up : Nat → Bool) (finalUp : Bool),
      probeCount (probeServer poll up finalUp).1 ≤ 10) ∧
    (∀ (poll : Nat → Option Int) (up : Nat → Bool) (i n : Nat),
      poll i = none → up i = false →
      probeAttempts poll up i (n + 1)
        = (.check i :: .probe i 1 false :: (probeAttempts poll up (i + 1) n).1,
           (probeAttempts poll up (i + 1) n).2)) ∧
    (∀ (poll : Nat → Option Int) (up : Nat → Bool) (finalUp : Bool),
      (probeAttempts poll up 0 10).2 = none →
      (probeServer poll up finalUp).1
          = (probeAttempts poll up 0 10).1 ++ [.finalWait 1 finalUp] ∧
      (probeServer poll up finalUp).2
          = (if finalUp then .ok () else .error .timeout)) ∧
    (∀ (poll poll' : Nat → Option Int) (up : Nat → Bool) (finalUp : Bool),
      (∀ j, j < 10 → poll j = poll' j) →
      probeServer poll up finalUp = probeServer poll' up finalUp) ∧
    ((start_proxy w).2 = .ok () ↔
      ((probeAttempts w.pollPub w.upPub 0 10).2 = none ∧ w.finalPub = true ∧
       (probeAttempts w.pollApi w.upApi 0 10).2 = none ∧ w.finalApi = true)) := by
  refine ⟨probeServer_probeCount_le, probeAttempts_timeout_retries, probeServer_final,
    ?_, start_proxy_ok_iff w⟩
  intro poll poll' up finalUp h
  unfold probeServer
  rw [probeAttempts_poll_local poll poll' up 10 0 (fun j _ hj => h j (by omega))]

/-- Witness for C1: in a world where the public endpoint never comes up
and the process never exits, the loop exhausts its budget and the final
unconditional wait fails with the startup-timeout error. -/
theorem start_proxy_retry_discipline_w :
    (probeServer (fun _ => none) (fun _ => false) false).2
      = Except.error StartErr.timeout := by
  have h := ((start_proxy_retry_discipline
      ⟨fun _ => none, fun _ => false, false,
       fun _ => none, fun _ => false, false⟩).2.2.1
    (fun _ => none) (fun _ => false) false rfl).2
  simpa using h

/-- Events tagged with their own endpoint are all extracted. -/
theorem endpointEvents_map_same (tag : EndpointTag) (tr : List ProbeEv) :
    endpointEvents tag (tr.map (Prod.mk tag)) = tr := by
  induction tr with
  | nil => rfl
  | cons e t ih =>
    simp only [endpointEvents] at ih
    simp [endpointEvents, List.filter_cons, ih]

/-- Events tagged with the other endpoint are all dropped. -/
theorem endpointEvents_map_other (tag tag' : EndpointTag)
    (h : (tag' == tag) = false) (tr : List ProbeEv) :
    endpointEvents tag (tr.map (Prod.mk tag')) = [] := by
  induction tr with
  | nil => rfl
  | cons e t ih =>
    simp only [endpointEvents] at ih
    simp [endpointEvents, List.filter_cons, h, ih]

/-- Extracting an endpoint's events distributes over concatenation. -/
theorem endpointEvents_append (tag : EndpointTag)
    (a b : List (EndpointTag × ProbeEv)) :
    endpointEvents tag (a ++ b) = endpointEvents tag a ++ endpointEvents tag b := by
  simp [endpointEvents, List.filter_append]

/-- **C6.** If the proxy process has already exited (with code `c`) when
a readiness probe attempt begins — at any attempt `i` of either
endpoint's loop, the earlier attempts having timed out — `start_proxy`
fails immediately with the launch error carrying `c` and performs no
further probe retries: exactly the `i` earlier timed-out probes appear
for that endpoint and none after the exit is discovered; an exit found
during the public endpoint's loop moreover leaves the api endpoint
entirely unprobed. -/
theorem start_proxy_dead_process (w : ProbeWorld) (c : Int) (i : Nat) :
    ((∀ j, j < i → w.pollPub j = none ∧ w.upPub j = false) → i < 10 →
      w.pollPub i = some c →
      (start_proxy w).2 = .error (.launch c) ∧
      probeCount (endpointEvents .publicEp (start_proxy w).1) = i ∧
      endpointEvents .apiEp (start_proxy w).1 = []) ∧
    ((probeServer w.pollPub w.upPub w.finalPub).2 = .ok () →
      (∀ j, j < i → w.pollApi j = none ∧ w.upApi j = false) → i < 10 →
      w.pollApi i = some c →
      (start_proxy w).2 = .error (.launch c) ∧
      probeCount (endpointEvents .apiEp (start_proxy w).1) = i) := by
  constructor
  · intro hto hi hp
    have hd := probeAttempts_dead_after w.pollPub w.upPub i 0 10 c
      (fun j _ h2 => hto j (by omega)) hi (by simpa using hp)
    have hS := probeServer_eq_some w.pollPub w.upPub w.finalPub (.launch c) hd.1
    have hE := start_proxy_eq_error w (.launch c) (by rw [hS])
    have hE1 : (start_proxy w).1
        = (probeServer w.pollPub w.upPub w.finalPub).1.map (Prod.mk .publicEp) := by
      rw [hE]
    have hE2 : (start_proxy w).2 = .error (.launch c) := by rw [hE]
    have hS1 : (probeServer w.pollPub w.upPub w.finalPub).1
        = (probeAttempts w.pollPub w.upPub 0 10).1 := by rw [hS]
    refine ⟨hE2, ?_, ?_⟩
    · rw [hE1, hS1, endpointEvents_map_same]
      exact hd.2
    · rw [hE1]
      exact endpointEvents_map_other _ _ (by decide) _
  · intro hok hto hi hp
    have hd := probeAttempts_dead_after w.pollApi w.upApi i 0 10 c
      (fun j _ h2 => hto j (by omega)) hi (by simpa using hp)
    have hS := probeServer_eq_some w.pollApi w.upApi w.finalApi (.launch c) hd.1
    have hE := start_proxy_eq_ok w hok
    have hE1 : (start_proxy w).1
        = (probeServer w.pollPub w.upPub w.finalPub).1.map (Prod.mk .publicEp)
          ++ (probeServer w.pollApi w.upApi w.finalApi).1.map (Prod.mk .apiEp) := by
      rw [hE]
    have hE2 : (start_proxy w).2
        = (probeServer w.pollApi w.upApi w.finalApi).2 := by rw [hE]
    have hS1 : (probeServer w.pollApi w.upApi w.finalApi).1
        = (probeAttempts w.pollApi w.upApi 0 10).1 := by rw [hS]
    have hS2 : (probeServer w.pollApi w.upApi w.finalApi).2
        = .error (.launch c) := by rw [hS]
    refine ⟨?_, ?_⟩
    · rw [hE2, hS2]
    · rw [hE1, endpointEvents_append, endpointEvents_map_other _ _ (by decide) _,
        hS1, endpointEvents_map_same, List.nil_append]
      exact hd.2

/-- Witness for C6: a process that exits with code 17 before the first
probe yields the launch error carrying 17, zero probe retries, and an
untouched api endpoint. -/
theorem start_proxy_dead_process_w :
    (start_proxy ⟨fun _ => some 17, fun _ => false, false,
        fun _ => none, fun _ => false, false⟩).2
      = Except.error (StartErr.launch 17) ∧
    probeCount (endpointEvents EndpointTag.publicEp
      (start_proxy ⟨fun _ => some 17, fun _ => false, false,
        fun _ => none, fun _ => false, false⟩).1) = 0 ∧
    endpointEvents EndpointTag.apiEp
      (start_proxy ⟨fun _ => some 17, fun _ => false, false,
        fun _ => none, fun _ => false, false⟩).1 = [] :=
  (start_proxy_dead_process ⟨fun _ => some 17, fun _ => false, false,
      fun _ => none, fun _ => false, false⟩ 17 0).1
    (fun j hj => absurd hj (Nat.not_lt_zero j)) (by decide) rfl

/-- Recognizes a restart action. -/
def isRestart : WatchAct → Bool
  | .restart _ => true
  | .addRoute _ => false

/-- **C7.** A watchdog tick is a no-op when the proxy process is alive —
no restart and no route replay — and when the process has exited it is
exactly one restart of the same Proxy entity (same token and endpoints),
as the first action, followed by one route-add per currently-known user
with a backend. -/
theorem check_proxy_tick (proxy : ProxyEntity) (poll : Option Int)
    (users : List String) :
    (poll = none → check_proxy proxy poll users = []) ∧
    (∀ c, poll = some c →
      check_proxy proxy poll users = .restart proxy :: users.map .addRoute ∧
      (check_proxy proxy poll users).countP isRestart = 1 ∧
      (check_proxy proxy poll users).head? = some (.restart proxy)) := by
  constructor
  · intro h; rw [h]; rfl
  · intro c h
    rw [h]
    refine ⟨rfl, ?_, rfl⟩
    simp only [check_proxy, List.countP_cons, isRestart]
    have : (users.map WatchAct.addRoute).countP isRestart = 0 := by
      rw [List.countP_eq_zero]
      intro a ha
      rcases List.mem_map.mp ha with ⟨u, _, rfl⟩
      simp [isRestart]
    simp [this, isRestart]

/-- Witness for C7: a tick with a live process is a no-op; a tick after
an exit with code 1 restarts once and replays the two known routes. -/
theorem check_proxy_tick_w :
    check_proxy ⟨⟨"", 8000, ""⟩, ⟨"localhost", 8001, "/api/routes/"⟩, "tok"⟩
        none ["alice"] = [] ∧
    check_proxy ⟨⟨"", 8000, ""⟩, ⟨"localhost", 8001, "/api/routes/"⟩, "tok"⟩
        (some 1) ["alice", "bob"]
      = [.restart ⟨⟨"", 8000, ""⟩, ⟨"localhost", 8001, "/api/routes/"⟩, "tok"⟩,
         .addRoute "alice", .addRoute "bob"] :=
  ⟨(check_proxy_tick _ none ["alice"]).1 rfl,
   ((check_proxy_tick _ (some 1) ["alice", "bob"]).2 1 rfl).1⟩

/-! ### Supporting lemmas for `cleanup` -/

/-- Dispatch equation: some awaited stop future failed. -/
theorem cleanup_eq_error (w : CleanupWorld) (u : String)
    (h : (awaitFutures (stopsOf w)).2 = .error u) :
    cleanup w
      = ((stopsOf w).map (fun p => CleanEv.stopRequested p.1)
           ++ [CleanEv.terminateProxy] ++ (awaitFutures (stopsOf w)).1,
         .error u) := by
  unfold cleanup
  rw [h]

/-- Dispatch equation: every awaited stop future resolved. -/
theorem cleanup_eq_ok (w : CleanupWorld)
    (h : (awaitFutures (stopsOf w)).2 = .ok ()) :
    cleanup w
      = ((stopsOf w).map (fun p => CleanEv.stopRequested p.1)
           ++ [CleanEv.terminateProxy] ++ (awaitFutures (stopsOf w)).1
           ++ (if w.pidFile ≠ "" ∧ w.pidFileExists = true
               then [CleanEv.removePid] else [])
           ++ [CleanEv.doneLog],
         .ok ()) := by
  unfold cleanup
  rw [h]

/-- If every stop future resolves, awaiting them all succeeds. -/
theorem awaitFutures_all_resolved :
    ∀ l : List (String × StopOutcome), (∀ p ∈ l, p.2 = StopOutcome.resolved) →
      (awaitFutures l).2 = .ok () := by
  intro l
  induction l with
  | nil => intro _; rfl
  | cons p rest ih =>
    intro h
    obtain ⟨u, o⟩ := p
    have ho : o = StopOutcome.resolved := h (u, o) (List.mem_cons_self _ _)
    subst ho
    simpa [awaitFutures] using ih (fun q hq => h q (List.mem_cons_of_mem _ hq))

/-- The error raised by awaiting the futures names a user whose stop
future failed. -/
theorem awaitFutures_error_mem :
    ∀ l : List (String × StopOutcome), ∀ u, (awaitFutures l).2 = .error u →
      (u, StopOutcome.failed) ∈ l := by
  intro l
  induction l with
  | nil => intro u h; simp [awaitFutures] at h
  | cons p rest ih =>
    intro u h
    obtain ⟨v, o⟩ := p
    cases o with
    | resolved =>
      simp only [awaitFutures] at h
      exact List.mem_cons_of_mem _ (ih u h)
    | failed =>
      simp only [awaitFutures, Except.error.injEq] at h
      subst h
      exact List.mem_cons_self _ _

/-- Awaiting the futures only ever records stop-awaited events. -/
theorem awaitFutures_events :
    ∀ l : List (String × StopOutcome), ∀ e ∈ (awaitFutures l).1,
      ∃ u, e = CleanEv.stopAwaited u := by
  intro l
  induction l with
  | nil => intro e he; simp [awaitFutures] at he
  | cons p rest ih =>
    intro e he
    obtain ⟨v, o⟩ := p
    cases o with
    | resolved =>
      simp only [awaitFutures, List.mem_cons] at he
      rcases he with he | he
      · exact ⟨v, he⟩
      · exact ih e he
    | failed => simp [awaitFutures] at he

/-! ### Claim theorems for `cleanup`, `start` and startup ordering -/

/-- **C2 (counterexample).** Three users hold backend handles and the
second stop future fails: `cleanup` raises the failure to its caller
(the result is the error, not success), the pid marker file is never
removed even though one is configured and present, and the third stop is
never awaited — refuting the claim that a failed stop is only reported
and blocks neither the other stops nor the marker-file removal. -/
theorem cleanup_stop_failure_cex :
    (cleanup ⟨[("a", some StopOutcome.resolved), ("b", some StopOutcome.failed),
        ("c", some StopOutcome.resolved)], "jupyterhub.pid", true⟩).2
      = .error "b" ∧
    CleanEv.removePid ∉
      (cleanup ⟨[("a", some StopOutcome.resolved), ("b", some StopOutcome.failed),
          ("c", some StopOutcome.resolved)], "jupyterhub.pid", true⟩).1 ∧
    CleanEv.stopAwaited "c" ∉
      (cleanup ⟨[("a", some StopOutcome.resolved), ("b", some StopOutcome.failed),
          ("c", some StopOutcome.resolved)], "jupyterhub.pid", true⟩).1 :=
  ⟨rfl, by decide, by decide⟩

/-- **C2 (amended).** During shutdown the proxy is always terminated —
termination is issued before any stop future is awaited, so it happens
even when a stop later fails.  When every stop future resolves,
`cleanup` completes successfully and removes the pid marker file
whenever one is configured and present.  But when some stop future
fails, the exception propagates to the caller of `cleanup`: the pid
marker file is not removed, and the raised error identifies a user
whose stop indeed failed. -/
theorem cleanup_behavior (w : CleanupWorld) :
    CleanEv.terminateProxy ∈ (cleanup w).1 ∧
    ((∀ p ∈ stopsOf w, p.2 = StopOutcome.resolved) →
      (cleanup w).2 = .ok () ∧
      (w.pidFile ≠ "" ∧ w.pidFileExists = true →
        CleanEv.removePid ∈ (cleanup w).1)) ∧
    (∀ u, (cleanup w).2 = .error u →
      CleanEv.removePid ∉ (cleanup w).1 ∧ (u, StopOutcome.failed) ∈ stopsOf w) := by
  cases h : (awaitFutures (stopsOf w)).2 with
  | error u0 =>
    rw [cleanup_eq_error w u0 h]
    refine ⟨by simp, ?_, ?_⟩
    · intro hall
      have hok := awaitFutures_all_resolved (stopsOf w) hall
      rw [h] at hok
      cases hok
    · intro u hu
      have huu : u0 = u := by simpa using hu
      subst huu
      refine ⟨?_, awaitFutures_error_mem _ u0 h⟩
      intro hmem
      rcases List.mem_append.mp hmem with hmem | hmem
      · rcases List.mem_append.mp hmem with hmem | hmem
        · rcases List.mem_map.mp hmem with ⟨p, _, hp⟩
          exact CleanEv.noConfusion hp
        · simp at hmem
      · rcases awaitFutures_events _ _ hmem with ⟨u', hu'⟩
        exact CleanEv.noConfusion hu'
  | ok v =>
    cases v
    rw [cleanup_eq_ok w h]
    refine ⟨by simp, ?_, ?_⟩
    · intro _
      refine ⟨rfl, ?_⟩
      intro hc
      simp [hc]
    · intro u hu
      exact absurd hu (by simp)

/-- Witness for the amended C2: one user whose stop resolves, a
configured and present pid file — cleanup succeeds and removes it. -/
theorem cleanup_behavior_w :
    (cleanup ⟨[("a", some StopOutcome.resolved)], "jupyterhub.pid", true⟩).2
        = .ok () ∧
    CleanEv.removePid ∈
      (cleanup ⟨[("a", some StopOutcome.resolved)], "jupyterhub.pid", true⟩).1 :=
  have h := (cleanup_behavior
      ⟨[("a", some StopOutcome.resolved)], "jupyterhub.pid", true⟩).2.1 (by decide)
  ⟨h.1, h.2 (by decide)⟩

/-- **C3 (counterexample).** With a proxy process that exits immediately
with code 17, `start` aborts with the "Failed to start proxy" diagnostic
but the resulting process exit status is 0 — the `except` clause merely
logs and returns, and `launch_instance` then returns normally — refuting
the claim that every startup failure yields a non-zero exit status. -/
theorem start_exit_status_cex :
    start ⟨fun _ => some 17, fun _ => false, false,
        fun _ => none, fun _ => false, false⟩
      = .aborted "Failed to start proxy" 0 := rfl

/-- **C3 (amended).** Every proxy startup failure (launch failure or
startup timeout) aborts `start` with the diagnostic "Failed to start
proxy" and the hub's request-handling surface is never bound — but the
process then exits with status 0, not a non-zero status; only on probe
success is the surface bound. -/
theorem start_abort_behavior (w : ProbeWorld) :
    (∀ e, (start_proxy w).2 = .error e →
      start w = .aborted "Failed to start proxy" 0 ∧ binds (start w) = false) ∧
    ((start_proxy w).2 = .ok () →
      start w = .serving ∧ binds (start w) = true) := by
  constructor
  · intro e h
    have hs : start w = .aborted "Failed to start proxy" 0 := by
      unfold start
      rw [h]
    exact ⟨hs, by rw [hs]; rfl⟩
  · intro h
    have hs : start w = .serving := by
      unfold start
      rw [h]
    exact ⟨hs, by rw [hs]; rfl⟩

/-- Witness for the amended C3: the immediately-exiting proxy leaves the
hub's request-handling surface unbound. -/
theorem start_abort_behavior_w :
    binds (start ⟨fun _ => some 17, fun _ => false, false,
        fun _ => none, fun _ => false, false⟩) = false :=
  ((start_abort_behavior ⟨fun _ => some 17, fun _ => false, false,
      fun _ => none, fun _ => false, false⟩).1 (.launch 17) rfl).2

/-- Dispatch equation: a port conflict aborts `initialize` and `start`
never runs. -/
theorem runApp_ports_error (pcfg : PortConfig) (w : ProbeWorld)
    (e : PortRole × PortRole) (h : init_ports pcfg = .error e) :
    runApp pcfg w = [.loadConfig, .writePid, .initLogging, .initPortsEv] := by
  unfold runApp initializeTrace
  rw [h]
  rfl

/-- Dispatch equation: ports fine, but the probing phase failed — the
proxy was launched and nothing after it happened. -/
theorem runApp_proxy_error (pcfg : PortConfig) (w : ProbeWorld)
    (e : StartErr) (hp : init_ports pcfg = .ok ())
    (hs : (start_proxy w).2 = .error e) :
    runApp pcfg w
      = [.loadConfig, .writePid, .initLogging, .initPortsEv, .initDbEv,
         .commitHub, .commitProxy, .initHandlersEv, .initSettings, .initApp,
         .buildEnv, .launchProxy] := by
  unfold runApp initializeTrace startTrace
  rw [hp, hs]
  rfl

/-- Dispatch equation: the fully successful run. -/
theorem runApp_ok (pcfg : PortConfig) (w : ProbeWorld)
    (hp : init_ports pcfg = .ok ()) (hs : (start_proxy w).2 = .ok ()) :
    runApp pcfg w
      = [.loadConfig, .writePid, .initLogging, .initPortsEv, .initDbEv,
         .commitHub, .commitProxy, .initHandlersEv, .initSettings, .initApp,
         .buildEnv, .launchProxy, .proxyReachable, .armWatchdog, .bindHub] := by
  unfold runApp initializeTrace startTrace
  rw [hp, hs]
  rfl

/-- **C8.** Startup ordering: whenever the proxy process is launched,
the entity store already holds the committed Proxy entity — and the
commit precedes even the construction of the launch environment holding
the token; and whenever the hub's request-handling surface is bound, the
probing phase succeeded and the proxy was confirmed reachable (after the
launch) strictly before the bind. -/
theorem startup_ordering (pcfg : PortConfig) (w : ProbeWorld) :
    (AppEv.launchProxy ∈ runApp pcfg w →
      (runApp pcfg w).indexOf AppEv.commitProxy
          < (runApp pcfg w).indexOf AppEv.buildEnv ∧
      (runApp pcfg w).indexOf AppEv.buildEnv
          < (runApp pcfg w).indexOf AppEv.launchProxy) ∧
    (AppEv.bindHub ∈ runApp pcfg w →
      (start_proxy w).2 = .ok () ∧
      (runApp pcfg w).indexOf AppEv.launchProxy
          < (runApp pcfg w).indexOf AppEv.proxyReachable ∧
      (runApp pcfg w).indexOf AppEv.proxyReachable
          < (runApp pcfg w).indexOf AppEv.bindHub) := by
  cases hp : init_ports pcfg with
  | error e =>
    rw [runApp_ports_error pcfg w e hp]
    exact ⟨fun hmem => absurd hmem (by decide),
           fun hmem => absurd hmem (by decide)⟩
  | ok u =>
    cases u
    cases hs : (start_proxy w).2 with
    | error e2 =>
      rw [runApp_proxy_error pcfg w e2 hp hs]
      exact ⟨fun _ => by decide, fun hmem => absurd hmem (by decide)⟩
    | ok v =>
      cases v
      rw [runApp_ok pcfg w hp hs]
      exact ⟨fun _ => by decide, fun _ => ⟨rfl, by decide, by decide⟩⟩

/-- Witness for C8: with both endpoints immediately reachable and
conflict-free ports, the run binds the hub only after the proxy was
confirmed reachable. -/
theorem startup_ordering_w :
    (runApp ⟨8000, 8081, 8001⟩
        ⟨fun _ => none, fun _ => true, true, fun _ => none, fun _ => true, true⟩).indexOf
        AppEv.proxyReachable
      < (runApp ⟨8000, 8081, 8001⟩
          ⟨fun _ => none, fun _ => true, true, fun _ => none, fun _ => true, true⟩).indexOf
          AppEv.bindHub :=
  ((startup_ordering ⟨8000, 8081, 8001⟩
      ⟨fun _ => none, fun _ => true, true, fun _ => none, fun _ => true, true⟩).2
    (by decide)).2.2

/-! ### Supporting lemmas for hub-prefix normalization -/

theorem startsWithL_nil_right (s : List Char) : startsWithL s [] = true := by
  cases s <;> rfl

/-- A list starts with `'/'` iff it is a slash followed by a tail. -/
theorem startsWithL_slash_iff (s : List Char) :
    startsWithL s ['/'] = true ↔ ∃ t, s = '/' :: t := by
  cases s with
  | nil => simp [startsWithL]
  | cons c t =>
    simp only [startsWithL, startsWithL_nil_right, Bool.and_true, beq_iff_eq]
    constructor
    · rintro rfl; exact ⟨t, rfl⟩
    · rintro ⟨t', ht⟩; cases ht; rfl

/-- A list ends with `'/'` iff it is some head followed by a slash. -/
theorem endsWithL_slash_iff (s : List Char) :
    endsWithL s ['/'] = true ↔ ∃ t, s = t ++ ['/'] := by
  unfold endsWithL
  rw [show (['/'] : List Char).reverse = ['/'] from rfl, startsWithL_slash_iff]
  constructor
  · rintro ⟨t, ht⟩
    refine ⟨t.reverse, ?_⟩
    have h2 := congrArg List.reverse ht
    simpa using h2
  · rintro ⟨t, rfl⟩
    exact ⟨t.reverse, by simp⟩

theorem startsWithL_slash_cons (s : List Char) :
    startsWithL ('/' :: s) ['/'] = true :=
  (startsWithL_slash_iff _).mpr ⟨s, rfl⟩

theorem endsWithL_append_slash (s : List Char) :
    endsWithL (s ++ ['/']) ['/'] = true :=
  (endsWithL_slash_iff _).mpr ⟨s, rfl⟩

/-- Prepending cannot change a nonempty list's slash-start. -/
theorem startsWithL_append_left (a b : List Char) (ha : a ≠ []) :
    startsWithL (a ++ b) ['/'] = startsWithL a ['/'] := by
  cases a with
  | nil => exact absurd rfl ha
  | cons c t =>
    simp [startsWithL, startsWithL_nil_right]

/-- Appending after a nonempty tail decides the slash-end. -/
theorem endsWithL_append_right (a b : List Char) (hb : b ≠ []) :
    endsWithL (a ++ b) ['/'] = endsWithL b ['/'] := by
  unfold endsWithL
  rw [List.reverse_append]
  exact startsWithL_append_left b.reverse a.reverse (by simpa using hb)

theorem dropSlashesL_cons_slash (t : List Char) :
    dropSlashesL ('/' :: t) = dropSlashesL t := by
  simp [dropSlashesL]

theorem dropSlashesL_cons_other (c : Char) (t : List Char) (hc : c ≠ '/') :
    dropSlashesL (c :: t) = c :: t := by
  simp [dropSlashesL, hc]

/-- Dropping leading slashes yields `[]` iff everything was a slash. -/
theorem dropSlashesL_eq_nil_iff (s : List Char) :
    dropSlashesL s = [] ↔ ∀ c ∈ s, c = '/' := by
  induction s with
  | nil => simp [dropSlashesL]
  | cons c t ih =>
    by_cases hc : c = '/'
    · subst hc
      rw [dropSlashesL_cons_slash, ih]
      simp
    · rw [dropSlashesL_cons_other c t hc]
      simp [hc]

/-- The head surviving the leading-slash drop is not a slash. -/
theorem dropSlashesL_head_ne (s : List Char) (c : Char) (t : List Char)
    (h : dropSlashesL s = c :: t) : c ≠ '/' := by
  induction s with
  | nil => cases h
  | cons a as ih =>
    by_cases ha : a = '/'
    · subst ha
      rw [dropSlashesL_cons_slash] at h
      exact ih h
    · rw [dropSlashesL_cons_other a as ha] at h
      cases h
      exact ha

/-- Dropping leading slashes removes a (slash-only) front segment. -/
theorem dropSlashesL_is_tail (s : List Char) :
    ∃ pre, s = pre ++ dropSlashesL s := by
  induction s with
  | nil => exact ⟨[], rfl⟩
  | cons c t ih =>
    by_cases hc : c = '/'
    · subst hc
      obtain ⟨pre, hpre⟩ := ih
      rw [dropSlashesL_cons_slash]
      exact ⟨'/' :: pre, by rw [List.cons_append, ← hpre]⟩
    · rw [dropSlashesL_cons_other c t hc]
      exact ⟨[], rfl⟩

/-- The result of the leading drop never starts with a slash. -/
theorem dropSlashesL_no_lead (s : List Char) :
    startsWithL (dropSlashesL s) ['/'] = false := by
  cases h : dropSlashesL s with
  | nil => rfl
  | cons c t =>
    have hc := dropSlashesL_head_ne s c t h
    rw [Bool.eq_false_iff]
    intro hw
    obtain ⟨t', ht'⟩ := (startsWithL_slash_iff _).mp hw
    cases ht'
    exact hc rfl

/-- Stripping a leading slash first changes nothing. -/
theorem stripSlashes_cons_slash (x : List Char) :
    stripSlashes ('/' :: x) = stripSlashes x := by
  unfold stripSlashes
  rw [dropSlashesL_cons_slash]

/-- Distributing the leading drop over a concatenation. -/
theorem dropSlashesL_append (x y : List Char) :
    dropSlashesL (x ++ y)
      = if dropSlashesL x = [] then dropSlashesL y else dropSlashesL x ++ y := by
  induction x with
  | nil => simp [dropSlashesL]
  | cons c t ih =>
    by_cases hc : c = '/'
    · subst hc
      rw [List.cons_append, dropSlashesL_cons_slash, dropSlashesL_cons_slash, ih]
    · rw [List.cons_append, dropSlashesL_cons_other _ _ hc,
        dropSlashesL_cons_other _ _ hc]
      simp

/-- Stripping a trailing slash changes nothing. -/
theorem stripSlashes_append_slash (x : List Char) :
    stripSlashes (x ++ ['/']) = stripSlashes x := by
  unfold stripSlashes
  rw [dropSlashesL_append]
  by_cases h : dropSlashesL x = []
  · rw [if_pos h, h]
    rfl
  · rw [if_neg h, List.reverse_append]
    show (dropSlashesL ('/' :: (dropSlashesL x).reverse)).reverse = _
    rw [dropSlashesL_cons_slash]

/-- The strip of a no-lead-no-tail-slash list is the list itself. -/
theorem stripSlashes_of_clean (x : List Char)
    (h1 : startsWithL x ['/'] = false) (h2 : endsWithL x ['/'] = false) :
    stripSlashes x = x := by
  have hL : dropSlashesL x = x := by
    cases x with
    | nil => rfl
    | cons c t =>
      refine dropSlashesL_cons_other c t ?_
      intro hc
      subst hc
      rw [startsWithL_slash_cons] at h1
      cases h1
  have hR : dropSlashesL x.reverse = x.reverse := by
    cases hx : x.reverse with
    | nil => rfl
    | cons c t =>
      refine dropSlashesL_cons_other c t ?_
      intro hc
      subst hc
      unfold endsWithL at h2
      rw [hx, show (['/'] : List Char).reverse = ['/'] from rfl,
        startsWithL_slash_cons] at h2
      cases h2
  unfold stripSlashes
  rw [hL, hR, List.reverse_reverse]

/-- The strip never ends with a slash. -/
theorem stripSlashes_no_tail (x : List Char) :
    endsWithL (stripSlashes x) ['/'] = false := by
  unfold stripSlashes endsWithL
  rw [List.reverse_reverse,
    show (['/'] : List Char).reverse = ['/'] from rfl]
  exact dropSlashesL_no_lead _

/-- The strip never starts with a slash. -/
theorem stripSlashes_no_lead (x : List Char) :
    startsWithL (stripSlashes x) ['/'] = false := by
  have hlead := dropSlashesL_no_lead x
  obtain ⟨pre, hpre⟩ := dropSlashesL_is_tail (dropSlashesL x).reverse
  have hx : stripSlashes x ++ pre.reverse = dropSlashesL x := by
    unfold stripSlashes
    have h2 := congrArg List.reverse hpre
    rw [List.reverse_append, List.reverse_reverse] at h2
    exact h2.symm
  cases hs : stripSlashes x with
  | nil => rfl
  | cons c t =>
    rw [Bool.eq_false_iff]
    intro hw
    obtain ⟨t', ht'⟩ := (startsWithL_slash_iff _).mp hw
    rw [ht'] at hs
    rw [hs] at hx
    rw [← hx, List.cons_append, startsWithL_slash_cons] at hlead
    cases hlead

/-- Stripping is idempotent. -/
theorem stripSlashes_idem (x : List Char) :
    stripSlashes (stripSlashes x) = stripSlashes x :=
  stripSlashes_of_clean _ (stripSlashes_no_lead x) (stripSlashes_no_tail x)

/-- The join keeps the second piece's final slash. -/
theorem urlPathJoin_tail_slash (a b : List Char)
    (hb : endsWithL b ['/'] = true) :
    endsWithL (urlPathJoin a b) ['/'] = true := by
  unfold urlPathJoin
  by_cases h : joinSlashed a b = ['/', '/']
  · rw [if_pos h]
    decide
  · rw [if_neg h]
    unfold joinSlashed
    rw [if_pos hb]
    exact endsWithL_append_slash _

/-- The join keeps the first piece's initial slash. -/
theorem urlPathJoin_lead_slash (a b : List Char)
    (ha : startsWithL a ['/'] = true) :
    startsWithL (urlPathJoin a b) ['/'] = true := by
  unfold urlPathJoin
  by_cases h : joinSlashed a b = ['/', '/']
  · rw [if_pos h]
    decide
  · rw [if_neg h]
    unfold joinSlashed
    rw [if_pos ha, List.cons_append]
    exact startsWithL_slash_cons _

/-- The handler's slash-adjusted value always starts with `'/'`. -/
theorem withLead_lead (s : List Char) :
    startsWithL (withLead s) ['/'] = true := by
  unfold withLead
  by_cases h : startsWithL s ['/'] = true
  · rw [if_pos h]; exact h
  · rw [if_neg h]; exact startsWithL_slash_cons s

/-- The handler's slash-adjusted value always ends with `'/'`. -/
theorem withTail_tail (s : List Char) :
    endsWithL (withTail s) ['/'] = true := by
  unfold withTail
  by_cases h : endsWithL s ['/'] = true
  · rw [if_pos h]; exact h
  · rw [if_neg h]; exact endsWithL_append_slash s

/-- Appending the trailing slash keeps the leading slash. -/
theorem withTail_preserves_lead (s : List Char)
    (h : startsWithL s ['/'] = true) :
    startsWithL (withTail s) ['/'] = true := by
  unfold withTail
  by_cases he : endsWithL s ['/'] = true
  · rw [if_pos he]; exact h
  · rw [if_neg he]
    obtain ⟨t, rfl⟩ := (startsWithL_slash_iff s).mp h
    rw [List.cons_append]
    exact startsWithL_slash_cons _

/-- The slash adjustments do not change the stripped core. -/
theorem stripSlashes_withBoth (s : List Char) :
    stripSlashes (withTail (withLead s)) = stripSlashes s := by
  have h1 : stripSlashes (withLead s) = stripSlashes s := by
    unfold withLead
    by_cases h : startsWithL s ['/'] = true
    · rw [if_pos h]
    · rw [if_neg h]; exact stripSlashes_cons_slash s
  unfold withTail
  by_cases h : endsWithL (withLead s) ['/'] = true
  · rw [if_pos h]; exact h1
  · rw [if_neg h, stripSlashes_append_slash]; exact h1

/-- A fixpoint of the normalization body starts and ends with `'/'`. -/
theorem step_fixpoint_slashes (base s : List Char)
    (hfix : hubPrefixStep base s = s) :
    startsWithL s ['/'] = true ∧ endsWithL s ['/'] = true := by
  unfold hubPrefixStep at hfix
  by_cases hA : startsWithL (withTail (withLead s)) base = true
  · rw [if_pos hA] at hfix
    exact ⟨hfix ▸ withTail_preserves_lead _ (withLead_lead s),
           hfix ▸ withTail_tail _⟩
  · rw [if_neg hA] at hfix
    have hend : endsWithL s ['/'] = true :=
      hfix ▸ urlPathJoin_tail_slash base _ (withTail_tail _)
    refine ⟨?_, hend⟩
    by_cases hb : startsWithL base ['/'] = true
    · exact hfix ▸ urlPathJoin_lead_slash base _ hb
    · by_cases hdd : joinSlashed base (withTail (withLead s)) = ['/', '/']
      · have hs : s = ['/'] := by
          rw [← hfix]
          unfold urlPathJoin
          rw [if_pos hdd]
        rw [hs]
        decide
      · exfalso
        have hbne : base ≠ [] := by
          intro h0
          subst h0
          exact hA (startsWithL_nil_right _)
        have hsane : stripSlashes base ≠ [] := by
          obtain ⟨c, t, rfl⟩ : ∃ c t, base = c :: t := by
            cases base with
            | nil => exact absurd rfl hbne
            | cons c t => exact ⟨c, t, rfl⟩
          have hc : c ≠ '/' := by
            intro h0
            subst h0
            exact hb (startsWithL_slash_cons t)
          intro h0
          unfold stripSlashes at h0
          rw [dropSlashesL_cons_other c t hc, List.reverse_eq_nil_iff] at h0
          have h4 := (dropSlashesL_eq_nil_iff _).mp h0
          exact hc (h4 c (by simp))
        have hj : urlPathJoin base (withTail (withLead s))
            = joinCore base (withTail (withLead s)) ++ ['/'] := by
          unfold urlPathJoin
          rw [if_neg hdd]
          unfold joinSlashed
          rw [if_neg hb, if_pos (withTail_tail _)]
        have hs : joinCore base (withTail (withLead s)) ++ ['/'] = s := by
          rw [← hj, hfix]
        unfold joinCore at hs
        rw [if_neg hsane] at hs
        by_cases h2 : stripSlashes (withTail (withLead s)) = []
        · rw [if_pos h2] at hs
          have h3 : stripSlashes s = stripSlashes base := by
            rw [← hs, stripSlashes_append_slash, stripSlashes_idem]
          rw [stripSlashes_withBoth] at h2
          rw [h3] at h2
          exact hsane h2
        · rw [if_neg h2] at hs
          have hclean : stripSlashes (stripSlashes base
                ++ '/' :: stripSlashes (withTail (withLead s)))
              = stripSlashes base ++ '/' :: stripSlashes (withTail (withLead s)) := by
            apply stripSlashes_of_clean
            · rw [startsWithL_append_left _ _ hsane]
              exact stripSlashes_no_lead base
            · rw [endsWithL_append_right _ _ (by simp),
                show ('/' :: stripSlashes (withTail (withLead s)))
                  = ['/'] ++ stripSlashes (withTail (withLead s)) from rfl,
                endsWithL_append_right _ _ h2]
              exact stripSlashes_no_tail _
          have hs2 : stripSlashes s
              = stripSlashes base ++ '/' :: stripSlashes (withTail (withLead s)) := by
            conv_lhs => rw [← hs, stripSlashes_append_slash, hclean]
          rw [stripSlashes_withBoth] at hs2
          have hlen := congrArg List.length hs2
          simp [List.length_append] at hlen
          omega

/-- A successful assignment stores a non-`'/'` fixpoint of the
normalization body. -/
theorem setHubPrefix_ok (base : List Char) :
    ∀ fuel new s, setHubPrefix base fuel new = .ok s →
      s ≠ ['/'] ∧ hubPrefixStep base s = s := by
  intro fuel
  induction fuel with
  | zero =>
    intro new s h
    exact Except.noConfusion h
  | succ n ih =>
    intro new s h
    unfold setHubPrefix at h
    by_cases h1 : new = ['/']
    · rw [if_pos h1] at h
      exact Except.noConfusion h
    · rw [if_neg h1] at h
      by_cases h2 : hubPrefixStep base new = new
      · rw [if_pos h2] at h
        have hs : new = s := by simpa using h
        subst hs
        exact ⟨h1, h2⟩
      · rw [if_neg h2] at h
        exact ih _ _ h

/-! ### Claim theorem for hub-prefix normalization -/

/-- **C10.** Assigning `'/'` as the hub prefix raises an error; after
any other assignment that completes, the stored hub prefix starts with
`'/'` (the handler having joined it under the base URL when the
slash-adjusted value did not already start with it) and ends with
`'/'`; and the normalization is idempotent — re-assigning the stored,
already-normalized value leaves it unchanged. -/
theorem hubPrefixInvariant (base : List Char) (fuel : Nat) :
    (∀ f, setHubPrefix base (f + 1) ['/'] = .error .slashError) ∧
    (∀ new s, setHubPrefix base fuel new = .ok s →
      startsWithL s ['/'] = true ∧ endsWithL s ['/'] = true) ∧
    (∀ new s f, setHubPrefix base fuel new = .ok s →
      setHubPrefix base (f + 1) s = .ok s) := by
  refine ⟨fun f => by simp [setHubPrefix], ?_, ?_⟩
  · intro new s h
    exact step_fixpoint_slashes base s (setHubPrefix_ok base fuel new s h).2
  · intro new s f h
    obtain ⟨hne, hfix⟩ := setHubPrefix_ok base fuel new s h
    unfold setHubPrefix
    rw [if_neg hne, if_pos hfix]

/-- Witness for C10: under the default base URL `"/"`, assigning
`"hub"` stores `"/hub/"`, which starts and ends with `'/'`. -/
theorem hubPrefixInvariant_w :
    startsWithL ['/', 'h', 'u', 'b', '/'] ['/'] = true ∧
    endsWithL ['/', 'h', 'u', 'b', '/'] ['/'] = true :=
  (hubPrefixInvariant ['/'] 3).2.1 ['h', 'u', 'b'] ['/', 'h', 'u', 'b', '/'] rfl

end JupyterHubApp
